import Mathlib

set_option maxRecDepth 8000

/-
Verification of the stack-to-module compiler implemented in
platinfra_cli/stack_processor/stack_processor/kubernetes_stack.py.

The definitions below are a shallow embedding of that file. Configuration
values coming from YAML are modelled by the inductive Value; Python dicts
keyed by strings are modelled as association lists with dict-update
semantics (overwrite in place, append when absent); raised exceptions are
modelled by an Except monad over PyError. File writes are modelled by
accumulating the would-be file contents in a list, in write order, so that
a run that raises part-way keeps the artifacts already written.
-/

namespace Mlinfra

/-- Scalar configuration value as it appears in the YAML-derived stack and
module configuration: a boolean, a string, an integer, or the YAML null. -/
inductive Value where
  | vbool : Bool → Value
  | vstr : String → Value
  | vint : Int → Value
  | vnone : Value
  deriving DecidableEq

/-- Python truthiness of a configuration value, as used by the check
`if key in CREATE_VPC_DB_SUBNET and value` in process_stack_modules. -/
def Value.truthy : Value → Bool
  | .vbool b => b
  | .vstr s => s != ""
  | .vint n => n != 0
  | .vnone => false

/-- One entry of the `inputs` list of an application config file: its name,
its default (compared against the literal string sentinel "None"), the
user_facing visibility flag, and the `value` field that the deferred
interpolation placeholder is built from. -/
structure InputSpec where
  name : String
  default : Value
  user_facing : Bool
  value : String
  deriving DecidableEq

/-- One entry of the `outputs` list of an application config file. The
export flag is called `export` in the source; `export` is a Lean keyword,
hence the trailing underscore. -/
structure OutputSpec where
  name : String
  export_ : Bool
  deriving DecidableEq

/-- An application config file as read by _read_config_file: the `inputs`
and `outputs` keys may each be absent. -/
structure ApplicationConfig where
  inputs : Option (List InputSpec)
  outputs : Option (List OutputSpec)
  deriving DecidableEq

/-- One declared stack entry of self.stacks: its stack type (the single
top-level key of the mapping), the optional `name` field, and the optional
`params` mapping (an association list, keys unique as in a Python dict). -/
structure StackEntry where
  stack_type : String
  name : Option String
  params : Option (List (String × Value))
  deriving DecidableEq

/-- A Python exception raised by the processor: process_stack_modules
raises KeyError for configuration violations, and subscripting the absent
application config raises TypeError. -/
inductive PyError where
  | keyError : String → PyError
  | typeError : String → PyError
  deriving DecidableEq

/-- The ConfigurationError taxonomy of the specification: the processor
signals configuration violations (missing stack name, non-user-facing
parameter) by raising KeyError; a TypeError is an unrelated failure, not a
configuration error. -/
def isConfigError : PyError → Bool
  | .keyError _ => true
  | .typeError _ => false

/-- One element of the aggregated self.output list: an exported output
reference, the state-storage entry, or the nested provider-identity block
(region and account id under the hardcoded "aws" key). -/
inductive OutputItem where
  | ref : String → String → OutputItem
  | state_storage : String → OutputItem
  | providers : String → String → OutputItem
  deriving DecidableEq

/-- The content of one emitted stack_<type>.tf.json (or vpc.tf.json)
artifact: its path, the single module name, and the module block, an
ordered mapping that starts with the "source" entry and then carries the
resolved attributes. -/
structure ModuleFile where
  path : String
  module_name : String
  block : List (String × Value)
  deriving DecidableEq

/-- Attribute entries of an emitted module block. Per the data model of
the specification the source path is a separate field of the descriptor;
every other entry of the block is a resolved attribute. -/
def ModuleFile.attrs (f : ModuleFile) : List (String × Value) :=
  f.block.filter (fun p => p.1 != "source")

/-- One resolved provider or environment level input variable, the
flattened form of the artifact shape name: [%type, default]. -/
structure VariableDescriptor where
  name : String
  type : String
  default : Option Value
  deriving DecidableEq

/-- One entry of stack_config["environments"]: its name and its optional
`variables` mapping. -/
structure EnvEntry where
  name : String
  variables_ : Option (List (String × Value))
  deriving DecidableEq

/-- Modelled from the spec: the cloud provider discriminator. The module
platinfra_cli/enums/provider.py is not under src/; the specification
section 6 lists the discriminator as enumerated with members AWS, GCP. -/
inductive Provider where
  | AWS : Provider
  | GCP : Provider
  deriving DecidableEq

/-- Modelled from the spec: equality between the enumerated Provider
discriminator and a raw string, as evaluated by the Python expression
self.provider == "aws" in get_eks_module_refs. The enum module is not
under src/; per the specification the discriminator is an enumeration
(not a string), and a plain Python enumeration member is never equal to a
string, so this comparison is uniformly false. -/
def providerEqStr (_p : Provider) (_s : String) : Bool := false

/-- Modelled from the spec: the fixed relative output directory TF_PATH
from platinfra_cli/utils/constants (not under src/). Its concrete value is
immaterial to every claim; it only prefixes artifact paths. -/
def TF_PATH : String := "tf_path_dir"

/-- Python dict update of a string-keyed association list with one pair:
overwrite the first occurrence of the key in place, append when absent. -/
def updAssoc : List (String × Value) → String → Value → List (String × Value)
  | [], k, v => [(k, v)]
  | p :: rest, k, v => if p.1 = k then (k, v) :: rest else p :: updAssoc rest k v

/-- Python dict update with every pair of a second association list, in
order (d.update(other)). -/
def dictUpdateAll : List (String × Value) → List (String × Value) → List (String × Value)
  | m, [] => m
  | m, p :: ps => dictUpdateAll (updAssoc m p.1 p.2) ps

/-- Lookup of a key in a string-keyed association list (first occurrence,
as in a Python dict without duplicate keys). -/
def lookupA : List (String × Value) → String → Option Value
  | [], _ => none
  | p :: rest, k => if p.1 = k then some p.2 else lookupA rest k

/-- Value given to a non-user-facing input in process_stack_modules: the
default of the input spec, except that the literal string "None" is
rewritten into the deferred interpolation placeholder built from the value
field of the spec. -/
def internalInputValue (i : InputSpec) : Value :=
  if i.default = Value.vstr ("None")
  then Value.vstr ("$\x7b " ++ i.value ++ " \x7d")
  else i.default

/-- The `inputs` dict built by the first loop of process_stack_modules:
every non-user-facing input spec is added under its own name with its
internal value; user-facing specs are skipped. -/
def resolveInternalInputs : List InputSpec → List (String × Value) → List (String × Value)
  | [], acc => acc
  | i :: rest, acc =>
    resolveInternalInputs rest
      (if i.user_facing then acc else updAssoc acc i.name (internalInputValue i))

/-- The exported output references appended to self.output for one stack
entry: one reference per output spec with the export flag set, in schema
order, valued by the interpolation naming the owning module and output. -/
def collectOutputs (name : String) (cfg : Option ApplicationConfig) : List OutputItem :=
  match cfg with
  | none => []
  | some c =>
    match c.outputs with
    | none => []
    | some outs =>
      outs.filterMap (fun o =>
        if o.export_ then
          some (OutputItem.ref o.name ("$\x7b module." ++ name ++ "." ++ o.name ++ " \x7d"))
        else none)

/-- The inner loop of the params section of process_stack_modules for one
supplied (key, value) pair: scan every input spec; at each spec whose name
equals the key, either accept the pair (user facing: update the params
dict and possibly raise the create_vpc_database_subnets flag) or raise
KeyError (not user facing). -/
def applyParamSpecs (ks : List String) (key : String) (value : Value) :
    List InputSpec → List (String × Value) → Bool →
    Except PyError (List (String × Value) × Bool)
  | [], ps, fl => Except.ok (ps, fl)
  | i :: rest, ps, fl =>
    if key = i.name then
      if i.user_facing then
        applyParamSpecs ks key value rest (updAssoc ps key value)
          (fl || (ks.contains key && value.truthy))
      else Except.error (PyError.keyError (key ++ " is not a user facing parameter"))
    else applyParamSpecs ks key value rest ps fl

/-- The outer loop of the params section of process_stack_modules: for
each supplied pair, subscript the application config (TypeError when it is
None, KeyError when it lacks the inputs key) and run the inner loop. -/
def entryParams (ks : List String) (cfg : Option ApplicationConfig) :
    List (String × Value) → List (String × Value) → Bool →
    Except PyError (List (String × Value) × Bool)
  | [], ps, fl => Except.ok (ps, fl)
  | kv :: rest, ps, fl =>
    match cfg with
    | none => Except.error (PyError.typeError ("NoneType object is not subscriptable"))
    | some c =>
      match c.inputs with
      | none => Except.error (PyError.keyError ("inputs"))
      | some specs =>
        match applyParamSpecs ks kv.1 kv.2 specs ps fl with
        | Except.error err => Except.error err
        | Except.ok (ps2, fl2) => entryParams ks cfg rest ps2 fl2

/-- Path of the artifact written for one stack entry. -/
def stackFilePath (stack_type : String) : String :=
  "./" ++ TF_PATH ++ "/stack_" ++ stack_type ++ ".tf.json"

/-- Source path of the module of one stack entry. -/
def moduleSource (stack_type name : String) : String :=
  "../modules/applications/" ++ stack_type ++ "/" ++ name ++ "/tf_module"

/-- The module block of one stack entry before the params section: the
source entry, updated with the dict of non-user-facing inputs when the
application config exists and declares inputs. -/
def baseBlock (stack_type name : String) (cfg : Option ApplicationConfig) :
    List (String × Value) :=
  match cfg with
  | some c =>
    match c.inputs with
    | some specs =>
      dictUpdateAll [(("source"), Value.vstr (moduleSource stack_type name))]
        (resolveInternalInputs specs [])
    | none => [(("source"), Value.vstr (moduleSource stack_type name))]
  | none => [(("source"), Value.vstr (moduleSource stack_type name))]

/-- Processing of one stack entry of the loop of process_stack_modules:
the output references appended to self.output, and either the raised error
or the written module file together with the updated
create_vpc_database_subnets flag. -/
def resolveEntry (readCfg : String → String → Option ApplicationConfig)
    (ks : List String) (e : StackEntry) (flag : Bool) :
    List OutputItem × Except PyError (ModuleFile × Bool) :=
  match e.name with
  | none =>
    ([], Except.error (PyError.keyError ("No application assigned to the stack: " ++ e.stack_type)))
  | some name =>
    match e.params with
    | none =>
      (collectOutputs name (readCfg e.stack_type name),
       Except.ok
         (⟨stackFilePath e.stack_type, name,
           baseBlock e.stack_type name (readCfg e.stack_type name)⟩, flag))
    | some ds =>
      match entryParams ks (readCfg e.stack_type name) ds [] flag with
      | Except.error err =>
        (collectOutputs name (readCfg e.stack_type name), Except.error err)
      | Except.ok (psv, fl2) =>
        (collectOutputs name (readCfg e.stack_type name),
         Except.ok
           (⟨stackFilePath e.stack_type, name,
             dictUpdateAll (baseBlock e.stack_type name (readCfg e.stack_type name)) psv⟩, fl2))

/-- The per-stack loop of process_stack_modules: written module files in
write order, accumulated output references, the running flag, and the
first raised error when the loop aborts. -/
def runEntries (readCfg : String → String → Option ApplicationConfig) (ks : List String) :
    List StackEntry → List ModuleFile → List OutputItem → Bool →
    List ModuleFile × List OutputItem × Bool × Option PyError
  | [], fs, os, flag => (fs, os, flag, none)
  | e :: rest, fs, os, flag =>
    match resolveEntry readCfg ks e flag with
    | (eo, Except.error err) => (fs, os ++ eo, flag, some err)
    | (eo, Except.ok (f, flag2)) => runEntries readCfg ks rest (fs ++ [f]) (os ++ eo) flag2

/-- The synthetic vpc module file injected after the loop when the
provider is AWS, with the accumulated subnet flag. -/
def vpcFile (flag : Bool) : ModuleFile :=
  ⟨"./" ++ TF_PATH ++ "/vpc.tf.json", "vpc",
   [(("source"), Value.vstr ("../modules/cloud/aws/vpc")),
    (("create_database_subnets"), Value.vbool flag)]⟩

/-- process_stack_modules: run the per-stack loop from an all-false flag,
then, when no error aborted the loop, inject the vpc module file for the
AWS provider (the GCP branch is pass). -/
def process_stack_modules (provider : Provider) (ks : List String)
    (readCfg : String → String → Option ApplicationConfig) (stackList : List StackEntry) :
    List ModuleFile × List OutputItem × Option PyError :=
  match runEntries readCfg ks stackList [] [] false with
  | (fs, os, flag, none) =>
    match provider with
    | Provider.AWS => (fs ++ [vpcFile flag], os, none)
    | Provider.GCP => (fs, os, none)
  | (fs, os, _, some err) => (fs, os, some err)

/-- process_stack_outputs: append the state-storage entry and the nested
provider-identity block to the accumulated output list (the content of the
written output.tf.json). -/
def process_stack_outputs (output : List OutputItem)
    (state_file_name region account_id : String) : List OutputItem :=
  output ++ [OutputItem.state_storage state_file_name,
             OutputItem.providers region account_id]

/-- get_eks_module_refs: choose the module source expression, then return
the refs mapping only when the provider equals the string "aws"; the
implicit fallthrough returns None. -/
def get_eks_module_refs (provider : Provider) (k8s_module_name : Option String) :
    Option (List (String × String)) :=
  let module_source :=
    match k8s_module_name with
    | some n =>
      if n.length != 0 then "module." ++ n
      else "data.terraform_remote_state.parent.outputs"
    | none => "data.terraform_remote_state.parent.outputs"
  if providerEqStr provider ("aws") then
    some [(("host"), "$\x7b" ++ module_source ++ ".k8s_endpoint\x7d"),
          (("token"), "$\x7bdata.aws_eks_cluster_auth.k8s.token\x7d"),
          (("cluster_ca_certificate"),
           "$\x7bbase64decode(" ++ module_source ++ ".k8s_ca_data)\x7d")]
  else none

/-- The environment scan of _default_config_input: walk the environments
in order; at the first entry whose name matches, append one descriptor per
key of its variables mapping (when present) and stop (break). -/
def defaultConfigLoop (isEnvMatch : String → Bool) : List EnvEntry → List VariableDescriptor
  | [] => []
  | env :: rest =>
    if isEnvMatch env.name then
      match env.variables_ with
      | some vars => vars.map (fun kv => ⟨kv.1, "string", some kv.2⟩)
      | none => []
    else defaultConfigLoop isEnvMatch rest

/-- _default_config_input: nothing when the stack config has no
environments key, otherwise the environment scan. The name-matching rule
_is_env_match lives in the abstract base class outside src/ and is passed
in as a parameter. -/
def _default_config_input (isEnvMatch : String → Bool)
    (environments : Option (List EnvEntry)) : List VariableDescriptor :=
  match environments with
  | none => []
  | some envs => defaultConfigLoop isEnvMatch envs

/-- Whether one stack entry raises the create_vpc_database_subnets flag:
it supplies a parameter whose key is in the subnet-triggering key set,
with a truthy value, and whose key matches a user-facing input spec of the
schema of the entry. -/
def entryTriggers (ks : List String)
    (readCfg : String → String → Option ApplicationConfig) (e : StackEntry) : Bool :=
  match e.name with
  | none => false
  | some n =>
    match readCfg e.stack_type n with
    | none => false
    | some c =>
      match c.inputs with
      | none => false
      | some specs =>
        match e.params with
        | none => false
        | some ds =>
          ds.any (fun kv => ks.contains kv.1 && kv.2.truthy &&
            specs.any (fun i => i.name == kv.1 && i.user_facing))

/-- Spec-side description of the exported output references contributed by
one stack entry, written from the words of claim C7: one reference per
output spec with the export flag, in schema order, valued
by the interpolation naming the owning module and output. -/
def specExportedRefs (readCfg : String → String → Option ApplicationConfig)
    (e : StackEntry) : List OutputItem :=
  match e.name with
  | none => []
  | some n =>
    match readCfg e.stack_type n with
    | none => []
    | some c =>
      match c.outputs with
      | none => []
      | some outs =>
        outs.filterMap (fun o =>
          if o.export_ then
            some (OutputItem.ref o.name ("$\x7b module." ++ n ++ "." ++ o.name ++ " \x7d"))
          else none)


/-- Keys of an association list. -/
def keysA (m : List (String × Value)) : List String := m.map Prod.fst

theorem lookupA_updAssoc_self (m : List (String × Value)) (k : String) (v : Value) :
    lookupA (updAssoc m k v) k = some v := by
  induction m with
  | nil => simp [updAssoc, lookupA]
  | cons p rest ih =>
    by_cases h : p.1 = k
    · simp [updAssoc, h, lookupA]
    · simp [updAssoc, h, lookupA, ih]

theorem lookupA_updAssoc_ne (m : List (String × Value)) (k k2 : String) (v : Value)
    (h : k2 ≠ k) : lookupA (updAssoc m k v) k2 = lookupA m k2 := by
  induction m with
  | nil =>
    simp only [updAssoc, lookupA]
    rw [if_neg (fun hh => h hh.symm)]
  | cons p rest ih =>
    by_cases hp : p.1 = k
    · simp only [updAssoc, if_pos hp, lookupA]
      rw [if_neg (fun hh => h hh.symm), if_neg (fun hh => h (hp ▸ hh).symm)]
    · simp only [updAssoc, if_neg hp, lookupA]
      by_cases hk2 : p.1 = k2
      · rw [if_pos hk2, if_pos hk2]
      · rw [if_neg hk2, if_neg hk2, ih]

theorem mem_keysA_updAssoc (m : List (String × Value)) (k k2 : String) (v : Value)
    (h : k2 ∈ keysA (updAssoc m k v)) : k2 ∈ keysA m ∨ k2 = k := by
  induction m with
  | nil =>
    simp only [updAssoc, keysA, List.map_cons, List.map_nil, List.mem_singleton] at h
    exact Or.inr h
  | cons p rest ih =>
    simp only [updAssoc] at h
    by_cases hp : p.1 = k
    · rw [if_pos hp] at h
      simp only [keysA, List.map_cons, List.mem_cons] at h
      rcases h with h | h
      · exact Or.inr h
      · exact Or.inl (by simp only [keysA, List.map_cons, List.mem_cons]; exact Or.inr h)
    · rw [if_neg hp] at h
      simp only [keysA, List.map_cons, List.mem_cons] at h
      rcases h with h | h
      · exact Or.inl (by simp only [keysA, List.map_cons, List.mem_cons]; exact Or.inl h)
      · rcases ih h with hm | hm
        · exact Or.inl (by
            simp only [keysA, List.map_cons, List.mem_cons]
            exact Or.inr (by simpa [keysA] using hm))
        · exact Or.inr hm

theorem nodup_keysA_updAssoc (m : List (String × Value)) (k : String) (v : Value) :
    (keysA m).Nodup → (keysA (updAssoc m k v)).Nodup := by
  induction m with
  | nil => intro _; simp [updAssoc, keysA]
  | cons p rest ih =>
    intro h
    simp only [keysA, List.map_cons, List.nodup_cons] at h
    simp only [updAssoc]
    by_cases hp : p.1 = k
    · rw [if_pos hp]
      simp only [keysA, List.map_cons, List.nodup_cons]
      exact ⟨hp ▸ h.1, h.2⟩
    · rw [if_neg hp]
      simp only [keysA, List.map_cons, List.nodup_cons]
      refine ⟨fun hmem => ?_, ih h.2⟩
      rcases mem_keysA_updAssoc rest k p.1 v (by simpa [keysA] using hmem) with hm | hm
      · exact h.1 (by simpa [keysA] using hm)
      · exact hp hm

theorem lookupA_eq_none_iff (m : List (String × Value)) (k : String) :
    lookupA m k = none ↔ k ∉ keysA m := by
  induction m with
  | nil => simp [lookupA, keysA]
  | cons p rest ih =>
    simp only [lookupA, keysA, List.map_cons, List.mem_cons]
    by_cases hp : p.1 = k
    · simp [hp]
    · simp only [if_neg hp, ih, keysA]
      constructor
      · rintro h (h2 | h2)
        · exact hp h2.symm
        · exact h h2
      · intro h h2
        exact h (Or.inr h2)

theorem lookupA_dictUpdateAll_none (ps : List (String × Value)) (m : List (String × Value))
    (k : String) (h : lookupA ps k = none) :
    lookupA (dictUpdateAll m ps) k = lookupA m k := by
  induction ps generalizing m with
  | nil => simp [dictUpdateAll]
  | cons p rest ih =>
    simp only [lookupA] at h
    by_cases hp : p.1 = k
    · rw [if_pos hp] at h
      exact absurd h (by simp)
    · rw [if_neg hp] at h
      simp only [dictUpdateAll]
      rw [ih _ h, lookupA_updAssoc_ne _ _ _ _ (fun hh => hp hh.symm)]

theorem lookupA_dictUpdateAll_some (ps : List (String × Value)) (m : List (String × Value))
    (k : String) (v : Value) (hnd : (keysA ps).Nodup) (h : lookupA ps k = some v) :
    lookupA (dictUpdateAll m ps) k = some v := by
  induction ps generalizing m with
  | nil => simp [lookupA] at h
  | cons p rest ih =>
    simp only [keysA, List.map_cons, List.nodup_cons] at hnd
    simp only [lookupA] at h
    by_cases hp : p.1 = k
    · rw [if_pos hp] at h
      have hrest : lookupA rest k = none := by
        rw [lookupA_eq_none_iff]
        intro hm
        exact hnd.1 (hp ▸ hm)
      simp only [dictUpdateAll]
      rw [lookupA_dictUpdateAll_none _ _ _ hrest, hp, lookupA_updAssoc_self]
      exact h
    · rw [if_neg hp] at h
      simp only [dictUpdateAll]
      exact ih (updAssoc m p.1 p.2) hnd.2 h

theorem lookupA_filter_not_source (m : List (String × Value)) (k : String) :
    lookupA (m.filter (fun p => p.1 != "source")) k =
      if k = "source" then none else lookupA m k := by
  induction m with
  | nil => simp [lookupA]
  | cons p rest ih =>
    by_cases hp : p.1 = "source"
    · have : (p.1 != "source") = false := by simp [hp]
      simp only [List.filter_cons, this, Bool.false_eq_true, if_false, ih, lookupA]
      by_cases hk : k = "source"
      · rw [if_pos hk, if_pos hk]
      · rw [if_neg hk, if_neg hk, if_neg (fun hh : p.1 = k => hk (hh ▸ hp ▸ rfl))]
    · have : (p.1 != "source") = true := by simp [hp]
      simp only [List.filter_cons, this, if_true, lookupA, ih]
      by_cases hpk : p.1 = k
      · rw [if_pos hpk, if_neg (fun hh : k = "source" => hp (hpk ▸ hh)), if_pos hpk]
      · rw [if_neg hpk, if_neg hpk]


theorem applyParamSpecs_no_match (ks : List String) (key : String) (v : Value)
    (specs : List InputSpec) (ps : List (String × Value)) (fl : Bool)
    (h : ∀ i ∈ specs, i.name ≠ key) :
    applyParamSpecs ks key v specs ps fl = Except.ok (ps, fl) := by
  induction specs with
  | nil => rfl
  | cons i rest ih =>
    have hi : i.name ≠ key := h i (List.mem_cons_self i rest)
    simp only [applyParamSpecs]
    rw [if_neg (fun hh => hi hh.symm)]
    exact ih (fun j hj => h j (List.mem_cons_of_mem i hj))

theorem applyParamSpecs_bad (ks : List String) (key : String) (v : Value)
    (specs : List InputSpec) (ps : List (String × Value)) (fl : Bool)
    (h : ∃ i ∈ specs, i.name = key ∧ i.user_facing = false) :
    applyParamSpecs ks key v specs ps fl =
      Except.error (PyError.keyError (key ++ " is not a user facing parameter")) := by
  induction specs generalizing ps fl with
  | nil => rcases h with ⟨i, hi, _⟩; exact absurd hi (List.not_mem_nil i)
  | cons i rest ih =>
    simp only [applyParamSpecs]
    by_cases hk : key = i.name
    · rw [if_pos hk]
      by_cases hu : i.user_facing
      · rw [if_pos hu]
        apply ih
        rcases h with ⟨j, hj, hname, huf⟩
        rcases List.mem_cons.1 hj with rfl | hjr
        · rw [hu] at huf; exact absurd huf (by simp)
        · exact ⟨j, hjr, hname, huf⟩
      · rw [if_neg hu]
    · rw [if_neg hk]
      apply ih
      rcases h with ⟨j, hj, hname, huf⟩
      rcases List.mem_cons.1 hj with rfl | hjr
      · exact absurd hname (fun hh => hk hh.symm)
      · exact ⟨j, hjr, hname, huf⟩

theorem applyParamSpecs_ok_of_user_facing (ks : List String) (key : String) (v : Value)
    (specs : List InputSpec) (ps : List (String × Value)) (fl : Bool)
    (h : ∀ i ∈ specs, i.name = key → i.user_facing = true) :
    ∃ r, applyParamSpecs ks key v specs ps fl = Except.ok r := by
  induction specs generalizing ps fl with
  | nil => exact ⟨(ps, fl), rfl⟩
  | cons i rest ih =>
    simp only [applyParamSpecs]
    by_cases hk : key = i.name
    · rw [if_pos hk, if_pos (h i (List.mem_cons_self i rest) hk.symm)]
      exact ih _ _ (fun j hj hn => h j (List.mem_cons_of_mem i hj) hn)
    · rw [if_neg hk]
      exact ih _ _ (fun j hj hn => h j (List.mem_cons_of_mem i hj) hn)

theorem applyParamSpecs_ok_lookup_self (ks : List String) (key : String) (v : Value)
    (specs : List InputSpec) (ps ps2 : List (String × Value)) (fl fl2 : Bool)
    (hok : applyParamSpecs ks key v specs ps fl = Except.ok (ps2, fl2))
    (hmatch : ∃ i ∈ specs, i.name = key) :
    lookupA ps2 key = some v := by
  induction specs generalizing ps fl with
  | nil => rcases hmatch with ⟨i, hi, _⟩; exact absurd hi (List.not_mem_nil i)
  | cons i rest ih =>
    simp only [applyParamSpecs] at hok
    by_cases hk : key = i.name
    · rw [if_pos hk] at hok
      by_cases hu : i.user_facing
      · rw [if_pos hu] at hok
        by_cases hr : ∃ j ∈ rest, j.name = key
        · exact ih _ _ hok hr
        · push_neg at hr
          rw [applyParamSpecs_no_match ks key v rest (updAssoc ps key v) _ hr] at hok
          simp only [Except.ok.injEq, Prod.mk.injEq] at hok
          rw [← hok.1]
          exact lookupA_updAssoc_self ps key v
      · rw [if_neg hu] at hok; exact Except.noConfusion hok
    · rw [if_neg hk] at hok
      apply ih _ _ hok
      rcases hmatch with ⟨j, hj, hn⟩
      rcases List.mem_cons.1 hj with rfl | hjr
      · exact absurd hn (fun hh => hk hh.symm)
      · exact ⟨j, hjr, hn⟩

theorem applyParamSpecs_ok_lookup_other (ks : List String) (key : String) (v : Value)
    (specs : List InputSpec) (ps ps2 : List (String × Value)) (fl fl2 : Bool) (k2 : String)
    (hok : applyParamSpecs ks key v specs ps fl = Except.ok (ps2, fl2))
    (hne : k2 ≠ key) :
    lookupA ps2 k2 = lookupA ps k2 := by
  induction specs generalizing ps fl with
  | nil =>
    simp only [applyParamSpecs, Except.ok.injEq, Prod.mk.injEq] at hok
    rw [← hok.1]
  | cons i rest ih =>
    simp only [applyParamSpecs] at hok
    by_cases hk : key = i.name
    · rw [if_pos hk] at hok
      by_cases hu : i.user_facing
      · rw [if_pos hu] at hok
        rw [ih _ _ hok, lookupA_updAssoc_ne _ _ _ _ hne]
      · rw [if_neg hu] at hok; exact Except.noConfusion hok
    · rw [if_neg hk] at hok
      exact ih _ _ hok

theorem applyParamSpecs_ok_flag (ks : List String) (key : String) (v : Value)
    (specs : List InputSpec) (ps ps2 : List (String × Value)) (fl fl2 : Bool)
    (hok : applyParamSpecs ks key v specs ps fl = Except.ok (ps2, fl2)) :
    fl2 = (fl || (ks.contains key && v.truthy &&
      specs.any (fun i => i.name == key && i.user_facing))) := by
  induction specs generalizing ps fl with
  | nil =>
    simp only [applyParamSpecs, Except.ok.injEq, Prod.mk.injEq] at hok
    simp [← hok.2]
  | cons i rest ih =>
    simp only [applyParamSpecs] at hok
    by_cases hk : key = i.name
    · rw [if_pos hk] at hok
      by_cases hu : i.user_facing
      · rw [if_pos hu] at hok
        have hhead : (i.name == key && i.user_facing) = true := by
          simp [hu, hk.symm]
        rw [ih _ _ hok]
        simp only [List.any_cons, hhead, Bool.true_or, Bool.and_true]
        cases (ks.contains key && Value.truthy v) <;> cases fl <;>
          cases rest.any (fun i => i.name == key && i.user_facing) <;> rfl
      · rw [if_neg hu] at hok; exact Except.noConfusion hok
    · rw [if_neg hk] at hok
      have hhead : (i.name == key && i.user_facing) = false := by
        cases hbb : (i.name == key) with
        | false => simp [hbb]
        | true => exact absurd (eq_of_beq hbb) (fun hh => hk hh.symm)
      rw [ih _ _ hok]
      simp [List.any_cons, hhead]

theorem applyParamSpecs_ok_nodup (ks : List String) (key : String) (v : Value)
    (specs : List InputSpec) (ps ps2 : List (String × Value)) (fl fl2 : Bool)
    (hok : applyParamSpecs ks key v specs ps fl = Except.ok (ps2, fl2))
    (hnd : (keysA ps).Nodup) :
    (keysA ps2).Nodup := by
  induction specs generalizing ps fl with
  | nil =>
    simp only [applyParamSpecs, Except.ok.injEq, Prod.mk.injEq] at hok
    rw [← hok.1]; exact hnd
  | cons i rest ih =>
    simp only [applyParamSpecs] at hok
    by_cases hk : key = i.name
    · rw [if_pos hk] at hok
      by_cases hu : i.user_facing
      · rw [if_pos hu] at hok
        exact ih _ _ hok (nodup_keysA_updAssoc ps key v hnd)
      · rw [if_neg hu] at hok; exact Except.noConfusion hok
    · rw [if_neg hk] at hok
      exact ih _ _ hok hnd


theorem entryParams_bad (ks : List String) (c : ApplicationConfig) (specs : List InputSpec)
    (hi : c.inputs = some specs) (ds ps : List (String × Value)) (fl : Bool)
    (key : String) (v : Value) (hkv : (key, v) ∈ ds)
    (hbad : ∃ i ∈ specs, i.name = key ∧ i.user_facing = false) :
    ∃ k2, (∃ i ∈ specs, i.name = k2 ∧ i.user_facing = false) ∧
      entryParams ks (some c) ds ps fl =
        Except.error (PyError.keyError (k2 ++ " is not a user facing parameter")) := by
  induction ds generalizing ps fl with
  | nil => exact absurd hkv (List.not_mem_nil _)
  | cons kv rest ih =>
    simp only [entryParams, hi]
    by_cases hb : ∃ i ∈ specs, i.name = kv.1 ∧ i.user_facing = false
    · refine ⟨kv.1, hb, ?_⟩
      rw [applyParamSpecs_bad ks kv.1 kv.2 specs ps fl hb]
    · have hok : ∃ r, applyParamSpecs ks kv.1 kv.2 specs ps fl = Except.ok r := by
        apply applyParamSpecs_ok_of_user_facing
        intro j hj hn
        by_cases hju : j.user_facing
        · exact hju
        · exact absurd ⟨j, hj, hn, Bool.eq_false_iff.mpr hju⟩ hb
      rcases hok with ⟨⟨ps2, fl2⟩, hok⟩
      rw [hok]
      have hkv2 : (key, v) ∈ rest := by
        rcases List.mem_cons.1 hkv with heq | hr
        · exact absurd (heq ▸ hbad) hb
        · exact hr
      exact ih _ _ hkv2

theorem entryParams_ok_lookup_preserve (ks : List String) (cfg : Option ApplicationConfig)
    (ds ps psv : List (String × Value)) (fl flv : Bool) (k : String)
    (hok : entryParams ks cfg ds ps fl = Except.ok (psv, flv))
    (hnone : ∀ kv ∈ ds, kv.1 ≠ k) :
    lookupA psv k = lookupA ps k := by
  induction ds generalizing ps fl with
  | nil =>
    simp only [entryParams, Except.ok.injEq, Prod.mk.injEq] at hok
    rw [← hok.1]
  | cons kv rest ih =>
    simp only [entryParams] at hok
    cases cfg with
    | none => exact Except.noConfusion hok
    | some c =>
      cases hci : c.inputs with
      | none => simp only [hci] at hok; exact Except.noConfusion hok
      | some specs =>
        simp only [hci] at hok
        cases ha : applyParamSpecs ks kv.1 kv.2 specs ps fl with
        | error err => simp only [ha] at hok; exact Except.noConfusion hok
        | ok r =>
          obtain ⟨ps2, fl2⟩ := r
          simp only [ha] at hok
          rw [ih _ _ hok (fun j hj => hnone j (List.mem_cons_of_mem kv hj))]
          exact applyParamSpecs_ok_lookup_other ks kv.1 kv.2 specs ps ps2 fl fl2 k ha
            (fun hh => hnone kv (List.mem_cons_self kv rest) hh.symm)

theorem entryParams_ok_lookup_mem (ks : List String) (c : ApplicationConfig)
    (specs : List InputSpec) (hi : c.inputs = some specs)
    (ds ps psv : List (String × Value)) (fl flv : Bool) (key : String) (v : Value)
    (hok : entryParams ks (some c) ds ps fl = Except.ok (psv, flv))
    (hnd : (ds.map Prod.fst).Nodup) (hkv : (key, v) ∈ ds)
    (hmatch : ∃ i ∈ specs, i.name = key) :
    lookupA psv key = some v := by
  induction ds generalizing ps fl with
  | nil => exact absurd hkv (List.not_mem_nil _)
  | cons kv rest ih =>
    simp only [entryParams, hi] at hok
    cases ha : applyParamSpecs ks kv.1 kv.2 specs ps fl with
    | error err => simp only [ha] at hok; exact Except.noConfusion hok
    | ok r =>
      obtain ⟨ps2, fl2⟩ := r
      simp only [ha] at hok
      simp only [List.map_cons, List.nodup_cons] at hnd
      rcases List.mem_cons.1 hkv with heq | hr
      · have hk1 : kv.1 = key := by rw [← heq]
        have hlook : lookupA ps2 key = some v := by
          have hv : kv.2 = v := by rw [← heq]
          rw [← hk1, ← hv]
          exact applyParamSpecs_ok_lookup_self ks kv.1 kv.2 specs ps ps2 fl fl2 ha
            (hk1 ▸ hmatch)
        rw [entryParams_ok_lookup_preserve ks (some c) rest ps2 psv fl2 flv key hok
          (fun j hj hcon => hnd.1 (hk1 ▸ hcon ▸ List.mem_map_of_mem Prod.fst hj))]
        exact hlook
      · exact ih _ _ hok hnd.2 hr

theorem entryParams_ok_flag (ks : List String) (c : ApplicationConfig)
    (specs : List InputSpec) (hi : c.inputs = some specs)
    (ds ps psv : List (String × Value)) (fl flv : Bool)
    (hok : entryParams ks (some c) ds ps fl = Except.ok (psv, flv)) :
    flv = (fl || ds.any (fun kv => ks.contains kv.1 && kv.2.truthy &&
      specs.any (fun i => i.name == kv.1 && i.user_facing))) := by
  induction ds generalizing ps fl with
  | nil =>
    simp only [entryParams, Except.ok.injEq, Prod.mk.injEq] at hok
    simp [← hok.2]
  | cons kv rest ih =>
    simp only [entryParams, hi] at hok
    cases ha : applyParamSpecs ks kv.1 kv.2 specs ps fl with
    | error err => simp only [ha] at hok; exact Except.noConfusion hok
    | ok r =>
      obtain ⟨ps2, fl2⟩ := r
      simp only [ha] at hok
      rw [ih _ _ hok, applyParamSpecs_ok_flag ks kv.1 kv.2 specs ps ps2 fl fl2 ha]
      rw [List.any_cons, Bool.or_assoc]

theorem entryParams_ok_nodup (ks : List String) (cfg : Option ApplicationConfig)
    (ds ps psv : List (String × Value)) (fl flv : Bool)
    (hok : entryParams ks cfg ds ps fl = Except.ok (psv, flv))
    (hnd : (keysA ps).Nodup) : (keysA psv).Nodup := by
  induction ds generalizing ps fl with
  | nil =>
    simp only [entryParams, Except.ok.injEq, Prod.mk.injEq] at hok
    rw [← hok.1]; exact hnd
  | cons kv rest ih =>
    simp only [entryParams] at hok
    cases cfg with
    | none => exact Except.noConfusion hok
    | some c =>
      cases hci : c.inputs with
      | none => simp only [hci] at hok; exact Except.noConfusion hok
      | some specs =>
        simp only [hci] at hok
        cases ha : applyParamSpecs ks kv.1 kv.2 specs ps fl with
        | error err => simp only [ha] at hok; exact Except.noConfusion hok
        | ok r =>
          obtain ⟨ps2, fl2⟩ := r
          simp only [ha] at hok
          exact ih _ _ hok (applyParamSpecs_ok_nodup ks kv.1 kv.2 specs ps ps2 fl fl2 ha hnd)

theorem entryParams_skip_unmatched (ks : List String) (c : ApplicationConfig)
    (specs : List InputSpec) (hi : c.inputs = some specs)
    (key : String) (v : Value) (hkey : ∀ i ∈ specs, i.name ≠ key)
    (ds1 ds2 ps : List (String × Value)) (fl : Bool) :
    entryParams ks (some c) (ds1 ++ (key, v) :: ds2) ps fl =
      entryParams ks (some c) (ds1 ++ ds2) ps fl := by
  induction ds1 generalizing ps fl with
  | nil =>
    simp only [List.nil_append, entryParams, hi]
    rw [applyParamSpecs_no_match ks key v specs ps fl hkey]
  | cons kv rest ih =>
    simp only [List.cons_append, entryParams, hi]
    cases ha : applyParamSpecs ks kv.1 kv.2 specs ps fl with
    | error err => rfl
    | ok r =>
      obtain ⟨ps2, fl2⟩ := r
      exact ih ps2 fl2

theorem entryParams_ok_lookup_unmatched (ks : List String) (c : ApplicationConfig)
    (specs : List InputSpec) (hi : c.inputs = some specs)
    (key : String) (hkey : ∀ i ∈ specs, i.name ≠ key)
    (ds ps psv : List (String × Value)) (fl flv : Bool)
    (hok : entryParams ks (some c) ds ps fl = Except.ok (psv, flv)) :
    lookupA psv key = lookupA ps key := by
  induction ds generalizing ps fl with
  | nil =>
    simp only [entryParams, Except.ok.injEq, Prod.mk.injEq] at hok
    rw [← hok.1]
  | cons kv rest ih =>
    simp only [entryParams, hi] at hok
    cases ha : applyParamSpecs ks kv.1 kv.2 specs ps fl with
    | error err => simp only [ha] at hok; exact Except.noConfusion hok
    | ok r =>
      obtain ⟨ps2, fl2⟩ := r
      simp only [ha] at hok
      by_cases hk : kv.1 = key
      · subst hk
        rw [applyParamSpecs_no_match ks kv.1 kv.2 specs ps fl hkey] at ha
        simp only [Except.ok.injEq, Prod.mk.injEq] at ha
        rw [ih _ _ hok, ← ha.1]
      · rw [ih _ _ hok]
        exact applyParamSpecs_ok_lookup_other ks kv.1 kv.2 specs ps ps2 fl fl2 key ha
          (fun hh => hk hh.symm)

theorem resolveInternalInputs_no_write (specs : List InputSpec)
    (acc : List (String × Value)) (k : String)
    (h : ∀ i ∈ specs, i.user_facing = false → i.name ≠ k) :
    lookupA (resolveInternalInputs specs acc) k = lookupA acc k := by
  induction specs generalizing acc with
  | nil => rfl
  | cons i rest ih =>
    simp only [resolveInternalInputs]
    by_cases hu : i.user_facing
    · rw [if_pos hu]
      exact ih _ (fun j hj => h j (List.mem_cons_of_mem i hj))
    · rw [if_neg hu]
      rw [ih _ (fun j hj => h j (List.mem_cons_of_mem i hj))]
      exact lookupA_updAssoc_ne acc i.name k _
        (fun hh => h i (List.mem_cons_self i rest) (Bool.eq_false_iff.mpr hu) hh.symm)

theorem resolveInternalInputs_lookup (specs : List InputSpec)
    (acc : List (String × Value)) (s : InputSpec)
    (hs : s ∈ specs) (huf : s.user_facing = false)
    (hnd : (specs.map InputSpec.name).Nodup) :
    lookupA (resolveInternalInputs specs acc) s.name = some (internalInputValue s) := by
  induction specs generalizing acc with
  | nil => exact absurd hs (List.not_mem_nil _)
  | cons i rest ih =>
    simp only [List.map_cons, List.nodup_cons] at hnd
    simp only [resolveInternalInputs]
    rcases List.mem_cons.1 hs with heq | hr
    · rw [if_neg (fun hh => by rw [← heq] at hh; rw [huf] at hh; exact Bool.noConfusion hh)]
      rw [resolveInternalInputs_no_write rest _ s.name
        (fun j hj _ hn => hnd.1 (by
          rw [← heq, ← hn]
          exact List.mem_map_of_mem InputSpec.name hj))]
      rw [← heq]
      exact lookupA_updAssoc_self acc s.name (internalInputValue s)
    · by_cases hu : i.user_facing
      · rw [if_pos hu]; exact ih _ hr hnd.2
      · rw [if_neg hu]; exact ih _ hr hnd.2

theorem resolveInternalInputs_nodup (specs : List InputSpec)
    (acc : List (String × Value)) :
    (keysA acc).Nodup → (keysA (resolveInternalInputs specs acc)).Nodup := by
  induction specs generalizing acc with
  | nil => intro h; exact h
  | cons i rest ih =>
    intro h
    simp only [resolveInternalInputs]
    by_cases hu : i.user_facing
    · rw [if_pos hu]; exact ih _ h
    · rw [if_neg hu]; exact ih _ (nodup_keysA_updAssoc _ _ _ h)


theorem resolveEntry_ok_flag (readCfg : String → String → Option ApplicationConfig)
    (ks : List String) (e : StackEntry) (fl : Bool) (eo : List OutputItem)
    (f : ModuleFile) (fl2 : Bool)
    (h : resolveEntry readCfg ks e fl = (eo, Except.ok (f, fl2))) :
    fl2 = (fl || entryTriggers ks readCfg e) := by
  obtain ⟨st, nm, pm⟩ := e
  cases nm with
  | none => simp [resolveEntry] at h
  | some n =>
    cases pm with
    | none =>
      simp only [resolveEntry, Prod.mk.injEq, Except.ok.injEq] at h
      have hfl : fl2 = fl := h.2.2.symm
      have ht : entryTriggers ks readCfg ⟨st, some n, none⟩ = false := by
        cases hc : readCfg st n with
        | none => simp [entryTriggers, hc]
        | some c =>
          cases hci : c.inputs with
          | none => simp [entryTriggers, hc, hci]
          | some specs => simp [entryTriggers, hc, hci]
      rw [hfl, ht, Bool.or_false]
    | some ds =>
      simp only [resolveEntry] at h
      cases hep : entryParams ks (readCfg st n) ds [] fl with
      | error err => simp only [hep] at h; simp at h
      | ok r =>
        obtain ⟨psv, flv⟩ := r
        simp only [hep, Prod.mk.injEq, Except.ok.injEq] at h
        have hfl : fl2 = flv := h.2.2.symm
        cases hc : readCfg st n with
        | none =>
          rw [hc] at hep
          cases ds with
          | nil =>
            simp only [entryParams, Except.ok.injEq, Prod.mk.injEq] at hep
            rw [hfl, ← hep.2]
            have ht : entryTriggers ks readCfg ⟨st, some n, some []⟩ = false := by
              simp [entryTriggers, hc]
            rw [ht, Bool.or_false]
          | cons kv rest =>
            simp only [entryParams] at hep
            exact Except.noConfusion hep
        | some c =>
          rw [hc] at hep
          cases hci : c.inputs with
          | none =>
            cases ds with
            | nil =>
              simp only [entryParams, Except.ok.injEq, Prod.mk.injEq] at hep
              rw [hfl, ← hep.2]
              have ht : entryTriggers ks readCfg ⟨st, some n, some []⟩ = false := by
                simp [entryTriggers, hc, hci]
              rw [ht, Bool.or_false]
            | cons kv rest =>
              simp only [entryParams, hci] at hep
              exact Except.noConfusion hep
          | some specs =>
            rw [entryParams_ok_flag ks c specs hci ds [] psv fl flv hep] at hfl
            rw [hfl]
            have ht : entryTriggers ks readCfg ⟨st, some n, some ds⟩ =
                ds.any (fun kv => ks.contains kv.1 && kv.2.truthy &&
                  specs.any (fun i => i.name == kv.1 && i.user_facing)) := by
              simp [entryTriggers, hc, hci]
            rw [ht]

theorem runEntries_flag (readCfg : String → String → Option ApplicationConfig)
    (ks : List String) (es : List StackEntry) (fs0 : List ModuleFile)
    (os0 : List OutputItem) (fl0 : Bool) (fs : List ModuleFile)
    (os : List OutputItem) (fl : Bool)
    (h : runEntries readCfg ks es fs0 os0 fl0 = (fs, os, fl, none)) :
    fl = (fl0 || es.any (entryTriggers ks readCfg)) := by
  induction es generalizing fs0 os0 fl0 with
  | nil =>
    simp only [runEntries, Prod.mk.injEq] at h
    rw [← h.2.2.1, List.any_nil, Bool.or_false]
  | cons e rest ih =>
    simp only [runEntries] at h
    cases hre : resolveEntry readCfg ks e fl0 with
    | mk eo r =>
      cases r with
      | error err => simp only [hre] at h; simp at h
      | ok p =>
        obtain ⟨f, fl2⟩ := p
        simp only [hre] at h
        rw [ih _ _ _ h, resolveEntry_ok_flag readCfg ks e fl0 eo f fl2 hre]
        rw [List.any_cons, Bool.or_assoc]

theorem resolveEntry_ok_outputs (readCfg : String → String → Option ApplicationConfig)
    (ks : List String) (e : StackEntry) (fl : Bool) (eo : List OutputItem)
    (x : ModuleFile × Bool)
    (h : resolveEntry readCfg ks e fl = (eo, Except.ok x)) :
    eo = specExportedRefs readCfg e := by
  obtain ⟨st, nm, pm⟩ := e
  cases nm with
  | none => simp [resolveEntry] at h
  | some n =>
    have hspec : specExportedRefs readCfg ⟨st, some n, pm⟩ =
        collectOutputs n (readCfg st n) := by
      simp only [specExportedRefs, collectOutputs]
    cases pm with
    | none =>
      simp only [resolveEntry, Prod.mk.injEq] at h
      rw [← h.1, hspec]
    | some ds =>
      simp only [resolveEntry] at h
      cases hep : entryParams ks (readCfg st n) ds [] fl with
      | error err => simp only [hep] at h; simp at h
      | ok r =>
        obtain ⟨psv, flv⟩ := r
        simp only [hep, Prod.mk.injEq] at h
        rw [← h.1, hspec]

theorem runEntries_outputs (readCfg : String → String → Option ApplicationConfig)
    (ks : List String) (es : List StackEntry) (fs0 : List ModuleFile)
    (os0 : List OutputItem) (fl0 : Bool) (fs : List ModuleFile)
    (os : List OutputItem) (fl : Bool)
    (h : runEntries readCfg ks es fs0 os0 fl0 = (fs, os, fl, none)) :
    os = os0 ++ (es.map (specExportedRefs readCfg)).flatten := by
  induction es generalizing fs0 os0 fl0 with
  | nil =>
    simp only [runEntries, Prod.mk.injEq] at h
    rw [← h.2.1]
    simp
  | cons e rest ih =>
    simp only [runEntries] at h
    cases hre : resolveEntry readCfg ks e fl0 with
    | mk eo r =>
      cases r with
      | error err => simp only [hre] at h; simp at h
      | ok p =>
        obtain ⟨f, fl2⟩ := p
        simp only [hre] at h
        rw [ih _ _ _ h, resolveEntry_ok_outputs readCfg ks e fl0 eo (f, fl2) hre]
        simp [List.append_assoc]

/-- C10: for every value of the Provider enumeration (AWS included) and
any module name, get_eks_module_refs returns none, because the provider is
compared against the literal string "aws" rather than the enumeration
value, making the AWS branch unreachable for enum-typed providers. -/
theorem c10_eks_refs_none (p : Provider) (m : Option String) :
    get_eks_module_refs p m = none := by
  simp [get_eks_module_refs, providerEqStr]

/-- C4: a stack entry whose mapping lacks a name field makes processing
fail with the configuration KeyError naming the stack type, and no module
descriptor is emitted for that entry: the run aborts with the files
written so far unchanged. -/
theorem c4_missing_name (readCfg : String → String → Option ApplicationConfig)
    (ks : List String) (st : String) (pm : Option (List (String × Value))) (fl : Bool) :
    resolveEntry readCfg ks ⟨st, none, pm⟩ fl =
      ([], Except.error (PyError.keyError ("No application assigned to the stack: " ++ st))) ∧
    ∀ rest fs os, runEntries readCfg ks (⟨st, none, pm⟩ :: rest) fs os fl =
      (fs, os, fl, some (PyError.keyError ("No application assigned to the stack: " ++ st))) := by
  constructor
  · rfl
  · intro rest fs os
    simp [runEntries, resolveEntry]

/-- C9: when compiling environment-default variables, only the first
environment entry (in sequence order) whose name matches contributes: one
variable descriptor is appended per key of the variables mapping of that
entry, and scanning stops there, so variables of any later entry are never
appended even if its name also matches. -/
theorem c9_first_env_wins (isEnvMatch : String → Bool) (pre post : List EnvEntry)
    (env : EnvEntry) (hpre : ∀ e ∈ pre, isEnvMatch e.name = false)
    (henv : isEnvMatch env.name = true) :
    _default_config_input isEnvMatch (some (pre ++ env :: post)) =
      (match env.variables_ with
       | some vars =>
         vars.map (fun kv => (⟨kv.1, "string", some kv.2⟩ : VariableDescriptor))
       | none => []) := by
  induction pre with
  | nil =>
    simp only [List.nil_append, _default_config_input, defaultConfigLoop]
    rw [if_pos henv]
  | cons e rest ih =>
    have he : isEnvMatch e.name = false := hpre e (List.mem_cons_self e rest)
    simp only [_default_config_input] at ih ⊢
    rw [List.cons_append]
    simp only [defaultConfigLoop]
    rw [if_neg (fun hh : isEnvMatch e.name = true => by
      rw [he] at hh; exact Bool.noConfusion hh)]
    exact ih (fun j hj => hpre j (List.mem_cons_of_mem e hj))

/-- Environment fixtures used by the witness of C9. -/
def envDev : EnvEntry := ⟨"dev", some [(("a"), Value.vstr ("1"))]⟩

def envProdA : EnvEntry := ⟨"prod", some [(("x"), Value.vstr ("1"))]⟩

def envProdB : EnvEntry := ⟨"prod", some [(("y"), Value.vstr ("2"))]⟩

def matchProd : String → Bool := fun s => s == "prod"

/-- Witness for C9: with environments dev, prod, prod (the last carrying a
different variable), only the first prod entry contributes. -/
theorem c9_witness :
    _default_config_input matchProd (some ([envDev] ++ envProdA :: [envProdB])) =
      [⟨"x", "string", some (Value.vstr ("1"))⟩] := by
  have h := c9_first_env_wins matchProd [envDev] [envProdB] envProdA
    (by intro e he; simp only [List.mem_singleton] at he; rw [he]; decide) (by decide)
  exact h

/-- Schema reader fixture used by the counterexample of C6: every lookup
misses. -/
def readCfgNoneC6 : String → String → Option ApplicationConfig := fun _ _ => none

/-- C6 (amended): when the module-schema lookup returns none and the
declared params mapping is non-empty, resolution fails — so the
parameters are not silently dropped — but with the TypeError raised by
subscripting the absent config, not with a configuration error; no
descriptor is emitted for the entry. -/
theorem c6_none_schema_with_params (readCfg : String → String → Option ApplicationConfig)
    (ks : List String) (st n : String) (p : String × Value)
    (ds : List (String × Value)) (fl : Bool)
    (hc : readCfg st n = none) :
    (resolveEntry readCfg ks ⟨st, some n, some (p :: ds)⟩ fl).2 =
      Except.error (PyError.typeError ("NoneType object is not subscriptable")) ∧
    isConfigError (PyError.typeError ("NoneType object is not subscriptable")) = false ∧
    ∀ rest fs os, (runEntries readCfg ks (⟨st, some n, some (p :: ds)⟩ :: rest) fs os fl).1 = fs := by
  have hep : entryParams ks (readCfg st n) (p :: ds) [] fl =
      Except.error (PyError.typeError ("NoneType object is not subscriptable")) := by
    rw [hc]
    rfl
  refine ⟨?_, rfl, ?_⟩
  · simp only [resolveEntry, hep]
  · intro rest fs os
    simp only [runEntries, resolveEntry, hep]

/-- Counterexample for C6: with a schema lookup that returns none and one
declared parameter, resolution fails with a TypeError (subscripting the
absent config), which is not a configuration error — refuting the claim
that this failure is a ConfigurationError. -/
theorem c6_counterexample :
    (resolveEntry readCfgNoneC6 [] ⟨"db", some "pg", some [(("size"), Value.vint 1)]⟩ false).2 =
      Except.error (PyError.typeError ("NoneType object is not subscriptable")) ∧
    isConfigError (PyError.typeError ("NoneType object is not subscriptable")) = false := by
  exact ⟨rfl, rfl⟩

/-- Witness for C6: the amended theorem applied at the concrete input of
the counterexample scenario. -/
theorem c6_witness :
    (resolveEntry readCfgNoneC6 [] ⟨"db", some "pg", some [(("size"), Value.vint 1)]⟩ false).2 =
      Except.error (PyError.typeError ("NoneType object is not subscriptable")) :=
  (c6_none_schema_with_params readCfgNoneC6 [] "db" "pg" (("size"), Value.vint 1) [] false rfl).1

/-- C1 (amended): for a run whose per-stack pass completes without error,
with provider AWS exactly one synthetic vpc module descriptor is emitted
after the pass, and its create_database_subnets attribute is true iff at
least one processed stack entry supplied a subnet-triggering parameter key
with a truthy value that matched a user-facing input spec of the schema of
that entry; with provider GCP no such descriptor is emitted at all. -/
theorem c1_vpc_injection (ks : List String)
    (readCfg : String → String → Option ApplicationConfig)
    (stackList : List StackEntry) (fs : List ModuleFile)
    (os : List OutputItem) (fl : Bool)
    (h : runEntries readCfg ks stackList [] [] false = (fs, os, fl, none)) :
    fl = stackList.any (entryTriggers ks readCfg) ∧
    process_stack_modules Provider.AWS ks readCfg stackList = (fs ++ [vpcFile fl], os, none) ∧
    lookupA (vpcFile fl).block ("create_database_subnets") = some (Value.vbool fl) ∧
    process_stack_modules Provider.GCP ks readCfg stackList = (fs, os, none) := by
  have hfl := runEntries_flag readCfg ks stackList [] [] false fs os fl h
  rw [Bool.false_or] at hfl
  refine ⟨hfl, ?_, rfl, ?_⟩
  · simp only [process_stack_modules, h]
  · simp only [process_stack_modules, h]

/-- Fixtures for C1: one stack entry that supplies the subnet-triggering
key with a truthy value. -/
def subnetKeysC1 : List String := [("create_vpc_database_subnets")]

def stackC1 : StackEntry :=
  ⟨"database", some "pg", some [(("create_vpc_database_subnets"), Value.vbool true)]⟩

/-- Schema reader fixture for the counterexample of C1: the schema exists
but declares no inputs, so the supplied parameter matches nothing and is
silently dropped. -/
def readCfgEmptyInputs : String → String → Option ApplicationConfig :=
  fun _ _ => some ⟨some [], some []⟩

def stackFileC1 : ModuleFile :=
  ⟨stackFilePath ("database"), "pg",
   [(("source"), Value.vstr (moduleSource ("database") ("pg")))]⟩

/-- Counterexample for C1: the per-stack pass completes, the only stack
entry supplied the subnet-triggering key with a truthy value, yet the
injected vpc descriptor carries create_database_subnets = false, because
the key matched no user-facing input spec — refuting the claimed iff as
stated. -/
theorem c1_counterexample :
    process_stack_modules Provider.AWS subnetKeysC1 readCfgEmptyInputs [stackC1] =
      ([stackFileC1, vpcFile false], [], none) ∧
    stackC1.params = some [(("create_vpc_database_subnets"), Value.vbool true)] ∧
    (subnetKeysC1.contains ("create_vpc_database_subnets") &&
      Value.truthy (Value.vbool true)) = true ∧
    lookupA (vpcFile false).block ("create_database_subnets") = some (Value.vbool false) ∧
    lookupA (vpcFile false).block ("create_database_subnets") ≠ some (Value.vbool true) := by
  refine ⟨by decide, rfl, by decide, by decide, by decide⟩

/-- Schema reader fixture for the witness of C1: the subnet key names a
user-facing input spec, so the supplied parameter is accepted. -/
def readCfgUFSubnet : String → String → Option ApplicationConfig :=
  fun _ _ => some ⟨some [⟨("create_vpc_database_subnets"), Value.vnone, true, ("")⟩], some []⟩

def stackFileC1w : ModuleFile :=
  ⟨stackFilePath ("database"), "pg",
   [(("source"), Value.vstr (moduleSource ("database") ("pg"))),
    (("create_vpc_database_subnets"), Value.vbool true)]⟩

/-- Witness for C1: the amended theorem applied at a concrete run whose
single entry supplies the subnet key accepted by a user-facing spec: the
vpc descriptor is injected with the flag true for AWS, and nothing is
injected for GCP. -/
theorem c1_witness :
    process_stack_modules Provider.AWS subnetKeysC1 readCfgUFSubnet [stackC1] =
      ([stackFileC1w] ++ [vpcFile true], [], none) ∧
    process_stack_modules Provider.GCP subnetKeysC1 readCfgUFSubnet [stackC1] =
      ([stackFileC1w], [], none) := by
  have h := c1_vpc_injection subnetKeysC1 readCfgUFSubnet [stackC1] [stackFileC1w] [] true
    (by decide)
  exact ⟨h.2.1, h.2.2.2⟩

/-- C2: for every non-user-facing input spec of the schema of a
successfully processed stack entry (schema input names distinct), the
resolved attribute stored under the name of that spec is the deferred
interpolation placeholder built from the value field when the default is
the literal string "None", and exactly the default otherwise — and it is
never the literal string "None". -/
theorem c2_internal_inputs (readCfg : String → String → Option ApplicationConfig)
    (ks : List String) (e : StackEntry) (fl : Bool) (n : String)
    (cfg : ApplicationConfig) (specs : List InputSpec) (s : InputSpec)
    (f : ModuleFile) (fl2 : Bool)
    (hn : e.name = some n) (hc : readCfg e.stack_type n = some cfg)
    (hi : cfg.inputs = some specs) (hs : s ∈ specs) (huf : s.user_facing = false)
    (hnd : (specs.map InputSpec.name).Nodup)
    (hok : (resolveEntry readCfg ks e fl).2 = Except.ok (f, fl2)) :
    lookupA f.block s.name =
      some (if s.default = Value.vstr ("None")
            then Value.vstr ("$\x7b " ++ s.value ++ " \x7d") else s.default) ∧
    lookupA f.block s.name ≠ some (Value.vstr ("None")) := by
  have hbase : lookupA (baseBlock e.stack_type n (readCfg e.stack_type n)) s.name =
      some (internalInputValue s) := by
    rw [hc]
    simp only [baseBlock, hi]
    exact lookupA_dictUpdateAll_some (resolveInternalInputs specs []) _ s.name
      (internalInputValue s)
      (resolveInternalInputs_nodup specs [] (by simp [keysA]))
      (resolveInternalInputs_lookup specs [] s hs huf hnd)
  have hmain : lookupA f.block s.name = some (internalInputValue s) := by
    simp only [resolveEntry, hn] at hok
    cases hp : e.params with
    | none =>
      simp only [hp, Except.ok.injEq, Prod.mk.injEq] at hok
      rw [← hok.1]
      exact hbase
    | some ds =>
      simp only [hp] at hok
      cases hep : entryParams ks (readCfg e.stack_type n) ds [] fl with
      | error err => simp only [hep] at hok; exact Except.noConfusion hok
      | ok r =>
        obtain ⟨psv, flv⟩ := r
        simp only [hep, Except.ok.injEq, Prod.mk.injEq] at hok
        rw [← hok.1]
        have hnokey : ∀ kv ∈ ds, kv.1 ≠ s.name := by
          intro kv hkv hcon
          have hmem : ((s.name, kv.2) : String × Value) ∈ ds := by
            rw [← hcon]
            exact hkv
          rcases entryParams_bad ks cfg specs hi ds [] fl s.name kv.2 hmem
            ⟨s, hs, rfl, huf⟩ with ⟨k2, _, heq⟩
          rw [hc, heq] at hep
          exact Except.noConfusion hep
        have hpres : lookupA psv s.name = none := by
          rw [entryParams_ok_lookup_preserve ks (readCfg e.stack_type n) ds [] psv fl flv
            s.name hep hnokey]
          rfl
        show lookupA (dictUpdateAll (baseBlock e.stack_type n (readCfg e.stack_type n)) psv)
          s.name = some (internalInputValue s)
        rw [lookupA_dictUpdateAll_none psv _ s.name hpres]
        exact hbase
  constructor
  · rw [hmain]
    rfl
  · rw [hmain]
    by_cases hd : s.default = Value.vstr ("None")
    · simp only [internalInputValue, if_pos hd]
      intro hcontr
      simp only [Option.some.injEq, Value.vstr.injEq] at hcontr
      have hlen := congrArg String.length hcontr
      rw [String.length_append, String.length_append] at hlen
      have h3 : ("$\x7b ").length = 3 := rfl
      have h4 : (" \x7d").length = 2 := rfl
      have h5 : ("None").length = 4 := rfl
      rw [h3, h4, h5] at hlen
      omega
    · simp only [internalInputValue, if_neg hd]
      intro hcontr
      simp only [Option.some.injEq] at hcontr
      exact hd hcontr

/-- Fixtures for the witness of C2: one non-user-facing input whose
default is the sentinel "None". -/
def specC2 : InputSpec := ⟨"endpoint", Value.vstr ("None"), false, ("module.pg.endpoint")⟩

def readCfgC2 : String → String → Option ApplicationConfig :=
  fun _ _ => some ⟨some [specC2], none⟩

def entryC2 : StackEntry := ⟨"database", some "pg", none⟩

def fileC2 : ModuleFile :=
  ⟨stackFilePath ("database"), "pg",
   baseBlock ("database") ("pg") (readCfgC2 ("database") ("pg"))⟩

/-- Witness for C2: in the concrete run the non-user-facing input with
default "None" resolves to the interpolation placeholder built from its
value field. -/
theorem c2_witness :
    lookupA fileC2.block ("endpoint") =
      some (Value.vstr ("$\x7b module.pg.endpoint \x7d")) := by
  have h := c2_internal_inputs readCfgC2 [] entryC2 false "pg" ⟨some [specC2], none⟩
    [specC2] specC2 fileC2 false rfl rfl rfl (by decide) rfl (by decide) rfl
  exact h.1

/-- C3: a caller-supplied parameter whose key names a non-user-facing
input spec makes resolution of that stack entry fail with the
configuration KeyError stating that a parameter is not user facing, and no
module descriptor is emitted for that entry. -/
theorem c3_non_user_facing_param (readCfg : String → String → Option ApplicationConfig)
    (ks : List String) (e : StackEntry) (fl : Bool) (n : String)
    (cfg : ApplicationConfig) (specs : List InputSpec) (ds : List (String × Value))
    (key : String) (value : Value) (s : InputSpec)
    (hn : e.name = some n) (hc : readCfg e.stack_type n = some cfg)
    (hi : cfg.inputs = some specs) (hp : e.params = some ds)
    (hkv : (key, value) ∈ ds) (hs : s ∈ specs) (hname : s.name = key)
    (huf : s.user_facing = false) :
    ∃ k2, (∃ t ∈ specs, t.name = k2 ∧ t.user_facing = false) ∧
      (resolveEntry readCfg ks e fl).2 =
        Except.error (PyError.keyError (k2 ++ " is not a user facing parameter")) ∧
      ∀ rest fs os, (runEntries readCfg ks (e :: rest) fs os fl).1 = fs ∧
        (runEntries readCfg ks (e :: rest) fs os fl).2.2.2 =
          some (PyError.keyError (k2 ++ " is not a user facing parameter")) := by
  rcases entryParams_bad ks cfg specs hi ds [] fl key value hkv ⟨s, hs, hname, huf⟩
    with ⟨k2, hk2, heq⟩
  refine ⟨k2, hk2, ?_, ?_⟩
  · simp only [resolveEntry, hn, hp, hc, heq]
  · intro rest fs os
    constructor <;> simp only [runEntries, resolveEntry, hn, hp, hc, heq]

/-- Fixtures for the witness of C3: a caller supplies a parameter that
names a non-user-facing input. -/
def specC3 : InputSpec := ⟨"internal_key", Value.vint 1, false, ("")⟩

def readCfgC3 : String → String → Option ApplicationConfig :=
  fun _ _ => some ⟨some [specC3], none⟩

def entryC3 : StackEntry := ⟨"eks", some "cluster", some [(("internal_key"), Value.vint 5)]⟩

/-- Witness for C3: at the concrete entry the resolution fails with the
KeyError naming the non-user-facing parameter. -/
theorem c3_witness :
    ∃ k2, (∃ t ∈ [specC3], t.name = k2 ∧ t.user_facing = false) ∧
      (resolveEntry readCfgC3 [] entryC3 false).2 =
        Except.error (PyError.keyError (k2 ++ " is not a user facing parameter")) ∧
      ∀ rest fs os, (runEntries readCfgC3 [] (entryC3 :: rest) fs os false).1 = fs ∧
        (runEntries readCfgC3 [] (entryC3 :: rest) fs os false).2.2.2 =
          some (PyError.keyError (k2 ++ " is not a user facing parameter")) := by
  exact c3_non_user_facing_param readCfgC3 [] entryC3 false "cluster" ⟨some [specC3], none⟩
    [specC3] [(("internal_key"), Value.vint 5)] ("internal_key") (Value.vint 5) specC3
    rfl rfl rfl rfl (by decide) (by decide) rfl rfl

/-- C5: a caller-supplied parameter whose key matches no input spec name
of the schema is silently dropped: processing the entry with the pair is
identical to processing it without the pair (in particular it introduces
no error), and on success the key appears nowhere in the resolved
attributes of the emitted module descriptor. -/
theorem c5_unmatched_param_dropped (readCfg : String → String → Option ApplicationConfig)
    (ks : List String) (st n : String) (cfg : ApplicationConfig)
    (specs : List InputSpec) (ds1 ds2 : List (String × Value))
    (key : String) (value : Value) (fl : Bool)
    (hc : readCfg st n = some cfg) (hi : cfg.inputs = some specs)
    (hkey : ∀ i ∈ specs, i.name ≠ key) :
    resolveEntry readCfg ks ⟨st, some n, some (ds1 ++ (key, value) :: ds2)⟩ fl =
      resolveEntry readCfg ks ⟨st, some n, some (ds1 ++ ds2)⟩ fl ∧
    ∀ f fl2,
      (resolveEntry readCfg ks ⟨st, some n, some (ds1 ++ (key, value) :: ds2)⟩ fl).2 =
        Except.ok (f, fl2) →
      lookupA (ModuleFile.attrs f) key = none := by
  constructor
  · simp only [resolveEntry, hc]
    rw [entryParams_skip_unmatched ks cfg specs hi key value hkey ds1 ds2 [] fl]
  · intro f fl2 hok
    simp only [resolveEntry, hc] at hok
    cases hep : entryParams ks (some cfg) (ds1 ++ (key, value) :: ds2) [] fl with
    | error err => simp only [hep] at hok; exact Except.noConfusion hok
    | ok r =>
      obtain ⟨psv, flv⟩ := r
      simp only [hep, Except.ok.injEq, Prod.mk.injEq] at hok
      rw [← hok.1]
      have hpsv : lookupA psv key = none := by
        rw [entryParams_ok_lookup_unmatched ks cfg specs hi key hkey _ [] psv fl flv hep]
        rfl
      show lookupA (ModuleFile.attrs ⟨stackFilePath st, n,
        dictUpdateAll (baseBlock st n (some cfg)) psv⟩) key = none
      simp only [ModuleFile.attrs]
      rw [lookupA_filter_not_source]
      by_cases hk : key = "source"
      · rw [if_pos hk]
      · rw [if_neg hk]
        rw [lookupA_dictUpdateAll_none psv _ key hpsv]
        simp only [baseBlock, hi]
        rw [lookupA_dictUpdateAll_none (resolveInternalInputs specs []) _ key (by
          rw [resolveInternalInputs_no_write specs [] key (fun j hj _ => hkey j hj)]
          rfl)]
        simp only [lookupA]
        rw [if_neg (fun hh => hk hh.symm)]

/-- Fixtures for the witness of C5: the schema declares one user-facing
input, and the caller supplies a key matching nothing. -/
def specC5 : InputSpec := ⟨"replicas", Value.vint 1, true, ("")⟩

def readCfgC5 : String → String → Option ApplicationConfig :=
  fun _ _ => some ⟨some [specC5], none⟩

/-- Witness for C5: dropping the unmatched pair leaves the processing of
the concrete entry unchanged. -/
theorem c5_witness :
    resolveEntry readCfgC5 [] ⟨"app", some "web", some ([] ++ (("ghost"), Value.vint 7) :: [])⟩ false =
      resolveEntry readCfgC5 [] ⟨"app", some "web", some ([] ++ [])⟩ false := by
  exact (c5_unmatched_param_dropped readCfgC5 [] "app" "web" ⟨some [specC5], none⟩
    [specC5] [] [] ("ghost") (Value.vint 7) false rfl rfl (by decide)).1

/-- C7: for a run whose per-stack pass completes without error, the final
aggregated output artifact is exactly the exported output references of
every processed stack, in schema-declared stack order, followed by exactly
the state-storage entry and the nested provider-identity block. -/
theorem c7_output_artifact (readCfg : String → String → Option ApplicationConfig)
    (ks : List String) (stackList : List StackEntry)
    (sfn region account_id : String) (fs : List ModuleFile)
    (os : List OutputItem) (fl : Bool)
    (h : runEntries readCfg ks stackList [] [] false = (fs, os, fl, none)) :
    process_stack_outputs os sfn region account_id =
      (stackList.map (specExportedRefs readCfg)).flatten ++
        [OutputItem.state_storage sfn, OutputItem.providers region account_id] := by
  have hos := runEntries_outputs readCfg ks stackList [] [] false fs os fl h
  rw [List.nil_append] at hos
  rw [process_stack_outputs, hos]

/-- Fixtures for the witness of C7: one entry whose schema declares one
exported and one unexported output. -/
def readCfgC7 : String → String → Option ApplicationConfig :=
  fun _ _ => some ⟨none, some [⟨"endpoint", true⟩, ⟨"secret", false⟩]⟩

def entryC7 : StackEntry := ⟨"database", some "pg", none⟩

/-- Witness for C7: the concrete run aggregates exactly the exported
reference followed by the state-storage and provider entries. -/
theorem c7_witness :
    process_stack_outputs [OutputItem.ref ("endpoint") ("$\x7b module.pg.endpoint \x7d")]
        ("state1") ("us-east-1") ("12345") =
      ([entryC7].map (specExportedRefs readCfgC7)).flatten ++
        [OutputItem.state_storage ("state1"), OutputItem.providers ("us-east-1") ("12345")] := by
  exact c7_output_artifact readCfgC7 [] [entryC7] "state1" "us-east-1" "12345"
    [⟨stackFilePath ("database"), "pg", baseBlock ("database") ("pg") (readCfgC7 ("database") ("pg"))⟩]
    [OutputItem.ref ("endpoint") ("$\x7b module.pg.endpoint \x7d")] false (by decide)

/-- C8: a caller-supplied parameter whose key names a user-facing input
spec appears unchanged, as the pair key: value, in the resolved attributes
of the emitted module descriptor of a successfully processed entry. -/
theorem c8_user_facing_passthrough (readCfg : String → String → Option ApplicationConfig)
    (ks : List String) (e : StackEntry) (fl : Bool) (n : String)
    (cfg : ApplicationConfig) (specs : List InputSpec) (ds : List (String × Value))
    (key : String) (value : Value) (s : InputSpec) (f : ModuleFile) (fl2 : Bool)
    (hn : e.name = some n) (hc : readCfg e.stack_type n = some cfg)
    (hi : cfg.inputs = some specs) (hp : e.params = some ds)
    (hkv : (key, value) ∈ ds) (hnd : (ds.map Prod.fst).Nodup)
    (hs : s ∈ specs) (hname : s.name = key) (_huf : s.user_facing = true)
    (hok : (resolveEntry readCfg ks e fl).2 = Except.ok (f, fl2)) :
    lookupA f.block key = some value := by
  simp only [resolveEntry, hn, hp, hc] at hok
  cases hep : entryParams ks (some cfg) ds [] fl with
  | error err => simp only [hep] at hok; exact Except.noConfusion hok
  | ok r =>
    obtain ⟨psv, flv⟩ := r
    simp only [hep, Except.ok.injEq, Prod.mk.injEq] at hok
    rw [← hok.1]
    have hpsv : lookupA psv key = some value :=
      entryParams_ok_lookup_mem ks cfg specs hi ds [] psv fl flv key value hep hnd hkv
        ⟨s, hs, hname⟩
    have hnodup : (keysA psv).Nodup :=
      entryParams_ok_nodup ks (some cfg) ds [] psv fl flv hep (by simp [keysA])
    exact lookupA_dictUpdateAll_some psv _ key value hnodup hpsv

/-- Fixtures for the witness of C8: the storage_gb parameter names a
user-facing input spec. -/
def specC8 : InputSpec := ⟨"storage_gb", Value.vnone, true, ("")⟩

def readCfgC8 : String → String → Option ApplicationConfig :=
  fun _ _ => some ⟨some [specC8], none⟩

def entryC8 : StackEntry := ⟨"database", some "pg", some [(("storage_gb"), Value.vint 50)]⟩

def fileC8 : ModuleFile :=
  ⟨stackFilePath ("database"), "pg",
   [(("source"), Value.vstr (moduleSource ("database") ("pg"))),
    (("storage_gb"), Value.vint 50)]⟩

/-- Witness for C8: the concrete supplied pair appears unchanged in the
emitted block. -/
theorem c8_witness : lookupA fileC8.block ("storage_gb") = some (Value.vint 50) := by
  exact c8_user_facing_passthrough readCfgC8 [] entryC8 false "pg" ⟨some [specC8], none⟩
    [specC8] [(("storage_gb"), Value.vint 50)] ("storage_gb") (Value.vint 50) specC8
    fileC8 false rfl rfl rfl rfl (by decide) (by decide) (by decide) rfl rfl rfl

end Mlinfra
